import Mathlib

/-!
Verification development for the axiomOS BPF subsystem.

The repository ships one source file, `examples/bpf/hello.bpf.c`, a leaf
consumer of the subsystem's ABI.  The loader, verifier and execution engine
themselves are described by the specification; their Lean definitions below
are therefore modelled from the spec, while the example program and the
helper-ID constants are embedded directly from the C source.
-/

namespace AxiomBPF

/-! ## Embedding of `examples/bpf/hello.bpf.c` -/

/-- From the source: `#define BPF_FUNC_ktime_get_ns 1`. -/
def BPF_FUNC_ktime_get_ns : Nat := 1

/-- From the source: `#define BPF_FUNC_trace_printk 2`. -/
def BPF_FUNC_trace_printk : Nat := 2

/-- A dispatch context: an opaque read-only word buffer reached through the
`void *ctx` argument of a program entry point. -/
abbrev Ctx := Nat → Nat

/-- From the source: `int hello_bpf(void *ctx) { return 0; }`. -/
def hello_bpf (_ctx : Ctx) : Int := 0

/-- From the source: `int timer_tick(void *ctx) { return 0; }`. -/
def timer_tick (_ctx : Ctx) : Int := 0

/-- From the source: section attribute of `hello_bpf`. -/
def hello_section : String := "tracepoint/syscalls/sys_enter"

/-- From the source: section attribute of `timer_tick`. -/
def timer_section : String := "timer"

/-- From the source: `char _license[] __attribute__((section("license"))) = "MIT";`. -/
def license_string : String := "MIT"

/-! ## Data model

Modelled from the spec: instruction set of the bytecode.  Each instruction
carries an opcode class (arithmetic, jump, memory, call, return), operand
register indices and immediate/offset fields; fixed width, immutable once
decoded. Memory offsets are word indices into the stack frame or the
event-context buffer. -/

inductive Instr where
  | movImm (dst : Nat) (imm : Nat)
  | add (dst : Nat) (src : Nat)
  | jmp (target : Nat)
  | jeqz (r : Nat) (target : Nat)
  | ldStack (dst : Nat) (off : Nat)
  | stStack (off : Nat) (src : Nat)
  | ldCtx (dst : Nat) (off : Nat)
  | call (hid : Nat)
  | exit
  deriving DecidableEq, Repr

/-- Modelled from the spec: the error taxonomy of the Decoder, CFA, Verifier
and Loader (spec sections 4 and 7); rejections carry the instruction index. -/
inductive LoadErr where
  | truncatedInstruction
  | unknownOpcode (i : Nat)
  | misalignedOffset (i : Nat)
  | invalidJumpTarget (i : Nat)
  | unreachableCode (i : Nat)
  | outOfBoundsAccess (i : Nat)
  | unknownHelper (i : Nat)
  | helperNotPermitted (i : Nat)
  | uninitializedRead (i : Nat)
  | unboundedLoop (i : Nat)
  | complexityExceeded
  | missingLicense
  | incompatibleLicense
  deriving DecidableEq, Repr

/-- Modelled from the spec: program types classified from the section name. -/
inductive SecType where
  | tracepoint
  | timer
  deriving DecidableEq, Repr

/-- Modelled from the spec: the verification verdict attached to a Program. -/
inductive Verdict where
  | notYetVerified
  | accepted
  | rejected (e : LoadErr)
  deriving DecidableEq, Repr

/-- Modelled from the spec: a Program is an ordered instruction sequence plus
section metadata plus a verification verdict; the budget field records the
instruction-visit budget certified at verification time. -/
structure Program where
  ty : SecType
  insns : List Instr
  budget : Nat
  verdict : Verdict
  deriving DecidableEq, Repr

/-- Modelled from the spec: host environment visible to helpers (the
time-source helper reads a nanosecond counter from it). -/
structure HelperEnv where
  now : Nat

/-- Modelled from the spec: a Helper Descriptor holds the numeric ID, the
argument count of its signature, the set of permitted program types and the
host-side function.  Helper functions take the two argument registers and
return a 64-bit signed result. -/
structure HelperDesc where
  id : Nat
  argCount : Nat
  permitted : List SecType
  sem : HelperEnv → Nat → Nat → Int

/-- Modelled from the spec: the Helper Registry, a catalog of descriptors. -/
abbrev Registry := List HelperDesc

/-- Word size modulus of the 64-bit machine. -/
def W : Nat := 2 ^ 64

/-- Modelled from the spec: helper ID 1, the time-source helper, returns a
64-bit nanosecond counter. -/
def ktimeSem : HelperEnv → Nat → Nat → Int :=
  fun env _ _ => Int.ofNat (env.now % W)

/-- Stack frame size of a program, in 64-bit words (512 bytes). -/
def stackWords : Nat := 64

/-- Event-context buffer size, in 64-bit words. -/
def ctxWords : Nat := 8

/-- Modelled from the spec: helper ID 2, the trace-output helper, takes a
buffer pointer and a length and returns the number of bytes written or a
negative error code. -/
def traceSem : HelperEnv → Nat → Nat → Int :=
  fun _ buf len => if buf + len ≤ stackWords * 8 then Int.ofNat len else -1

/-- Descriptor of the time-source helper. -/
def ktimeDesc : HelperDesc :=
  { id := BPF_FUNC_ktime_get_ns, argCount := 0
    permitted := [SecType.tracepoint, SecType.timer], sem := ktimeSem }

/-- Descriptor of the trace-output helper. -/
def traceDesc : HelperDesc :=
  { id := BPF_FUNC_trace_printk, argCount := 2
    permitted := [SecType.tracepoint, SecType.timer], sem := traceSem }

/-- Modelled from the spec: the registry populated once during process-wide
initialization, read-only afterwards. -/
def initialRegistry : Registry := [ktimeDesc, traceDesc]

/-- Look a helper ID up in the registry. -/
def findHelper (reg : Registry) (hid : Nat) : Option HelperDesc :=
  reg.find? (fun d => d.id == hid)

/-- Semantics of a helper ID under a registry, ignoring permissions: this is
the only part of a descriptor the Execution Engine consumes. -/
def helperSem (reg : Registry) (hid : Nat) : Option (HelperEnv → Nat → Nat → Int) :=
  (findHelper reg hid).map (fun d => d.sem)

/-! ## Decoder

Modelled from the spec: `decode(bytes)` turns a raw byte buffer into a
sequence of typed instructions or fails with `TruncatedInstruction`,
`UnknownOpcode` or `MisalignedOffset`.  Instructions are eight bytes wide:
opcode, two register fields, a 16-bit byte offset (little endian, must be
8-byte aligned for jump targets and memory accesses) and a 24-bit
immediate. -/

def decodeOne (i op ra rb o1 o2 m1 m2 m3 : Nat) : Except LoadErr Instr :=
  match op with
  | 0 => if ra < 10 then .ok (.movImm ra (m1 + 256 * m2 + 65536 * m3))
         else .error (.unknownOpcode i)
  | 1 => if ra < 10 && rb < 10 then .ok (.add ra rb) else .error (.unknownOpcode i)
  | 2 => if (o1 + 256 * o2) % 8 == 0 then .ok (.jmp ((o1 + 256 * o2) / 8))
         else .error (.misalignedOffset i)
  | 3 => if ra < 10 then
           if (o1 + 256 * o2) % 8 == 0 then .ok (.jeqz ra ((o1 + 256 * o2) / 8))
           else .error (.misalignedOffset i)
         else .error (.unknownOpcode i)
  | 4 => if ra < 10 then
           if (o1 + 256 * o2) % 8 == 0 then .ok (.ldStack ra ((o1 + 256 * o2) / 8))
           else .error (.misalignedOffset i)
         else .error (.unknownOpcode i)
  | 5 => if ra < 10 then
           if (o1 + 256 * o2) % 8 == 0 then .ok (.stStack ((o1 + 256 * o2) / 8) ra)
           else .error (.misalignedOffset i)
         else .error (.unknownOpcode i)
  | 6 => if ra < 10 then
           if (o1 + 256 * o2) % 8 == 0 then .ok (.ldCtx ra ((o1 + 256 * o2) / 8))
           else .error (.misalignedOffset i)
         else .error (.unknownOpcode i)
  | 7 => .ok (.call (m1 + 256 * m2))
  | 8 => .ok .exit
  | _ => .error (.unknownOpcode i)

def decodeGo (i : Nat) : List Nat → Except LoadErr (List Instr)
  | [] => .ok []
  | op :: ra :: rb :: o1 :: o2 :: m1 :: m2 :: m3 :: rest => do
    let ins ← decodeOne i op ra rb o1 o2 m1 m2 m3
    let r ← decodeGo (i + 1) rest
    .ok (ins :: r)
  | _ => .error .truncatedInstruction

/-- Modelled from the spec: the Decoder entry point. Pure, total, never
executes the program. -/
def decode (bytes : List Nat) : Except LoadErr (List Instr) := decodeGo 0 bytes

/-! ## Control-Flow Analyzer

Modelled from the spec: builds the successor graph over instructions, rejects
out-of-range successors (`InvalidJumpTarget`) and instructions unreachable
from the entry (`UnreachableCode`), rather than silently discarding them. -/

/-- Successor indices of the instruction at index `i`. A return instruction
flows to the synthetic exit block and has no successors in the graph. -/
def succsOf (i : Nat) : Instr → List Nat
  | .jmp t => [t]
  | .jeqz _ t => [t, i + 1]
  | .exit => []
  | _ => [i + 1]

/-- Run an indexed per-instruction check over the program, in instruction
order, returning the first error found; the traversal order is fixed, making
every rejection deterministic. -/
def firstErr (f : Nat → Instr → Option LoadErr) : Nat → List Instr → Option LoadErr
  | _, [] => none
  | i, ins :: rest =>
    match f i ins with
    | some e => some e
    | none => firstErr f (i + 1) rest

def rangeCheck (n : Nat) (i : Nat) (ins : Instr) : Option LoadErr :=
  if (succsOf i ins).all (fun j => j < n) then none else some (.invalidJumpTarget i)

def iterN (f : α → α) : Nat → α → α
  | 0, a => a
  | k + 1, a => iterN f k (f a)

/-- One round of reachability propagation from the current reachable set. -/
def reachStep (insns : List Instr) (s : List Nat) : List Nat :=
  (s ++ s.foldr
    (fun i acc =>
      (match insns.get? i with
       | some ins => succsOf i ins
       | none => []) ++ acc)
    []).dedup

/-- Indices reachable from the entry instruction, by bounded iteration of the
propagation step (the set is monotone and bounded by the program length). -/
def reachSet (insns : List Instr) : List Nat :=
  iterN (reachStep insns) insns.length [0]

def unreachCheck (insns : List Instr) (i : Nat) (_ins : Instr) : Option LoadErr :=
  if (reachSet insns).contains i then none else some (.unreachableCode i)

/-- Modelled from the spec: the Control-Flow Analyzer. An empty program has
no entry instruction, hence no valid entry edge. -/
def cfa (insns : List Instr) : Except LoadErr Unit :=
  if insns.isEmpty then .error (.invalidJumpTarget 0)
  else
    match firstErr (rangeCheck insns.length) 0 insns with
    | some e => .error e
    | none =>
      match firstErr (unreachCheck insns) 0 insns with
      | some e => .error e
      | none => .ok ()

/-! ## Verifier

Modelled from the spec: proves, per reachable instruction, that every memory
access is statically bounded within a known region (`OutOfBoundsAccess`),
that every call's helper ID resolves and is permitted (`UnknownHelper` /
`HelperNotPermitted`), that the control-flow graph has no cycle under the
chosen loop-admissibility policy (`UnboundedLoop`; the policy chosen here is
that all jumps go strictly forward), and that no register is read before
being written (`UninitializedRead`), by a single deterministic forward
dataflow pass whose block-merge rule intersects the initialized-register
sets of the incoming edges (the safe widening).  After control-flow
analysis every instruction is reachable, so the scans below cover exactly
the reachable instructions. -/

/-- A memory access whose address is not statically bounded within its
region (stack frame or event-context buffer). -/
def unboundedAccess : Instr → Bool
  | .ldStack _ off => !(off < stackWords : Bool)
  | .stStack off _ => !(off < stackWords : Bool)
  | .ldCtx _ off => !(off < ctxWords : Bool)
  | _ => false

def memCheck (i : Nat) (ins : Instr) : Option LoadErr :=
  if unboundedAccess ins then some (.outOfBoundsAccess i) else none

def helperCheck (reg : Registry) (ty : SecType) (i : Nat) (ins : Instr) : Option LoadErr :=
  match ins with
  | .call hid =>
    match findHelper reg hid with
    | none => some (.unknownHelper i)
    | some d => if ty ∈ d.permitted then none else some (.helperNotPermitted i)
  | _ => none

def loopCheck (i : Nat) (ins : Instr) : Option LoadErr :=
  match ins with
  | .jmp t => if i < t then none else some (.unboundedLoop i)
  | .jeqz _ t => if i < t then none else some (.unboundedLoop i)
  | _ => none

/-- Abstract register state of the dataflow pass: which registers are
initialized.  At entry only `r1`, the context argument, is. -/
abbrev RegSet := Nat → Bool

def initRS : RegSet := fun r => r == 1

def rsMeet (a b : RegSet) : RegSet := fun r => a r && b r

def rsAdd (s : RegSet) (l : List Nat) : RegSet := fun r => s r || l.contains r

def readsOf : Instr → List Nat
  | .movImm _ _ => []
  | .add d s => [d, s]
  | .jmp _ => []
  | .jeqz r _ => [r]
  | .ldStack _ _ => []
  | .stStack _ s => [s]
  | .ldCtx _ _ => []
  | .call _ => [1, 2]
  | .exit => [0]

def writesOf : Instr → List Nat
  | .movImm d _ => [d]
  | .add d _ => [d]
  | .ldStack d _ => [d]
  | .ldCtx d _ => [d]
  | .call _ => [0]
  | _ => []

/-- Incoming abstract states, indexed by instruction; `none` marks an index
no edge has reached yet. -/
abbrev FlowTbl := List (Option RegSet)

/-- Merge an abstract state into the incoming state of index `j`. -/
def tblJoin (t : FlowTbl) (j : Nat) (s : RegSet) : FlowTbl :=
  match t.get? j with
  | some (some old) => t.set j (some (rsMeet old s))
  | some none => t.set j (some s)
  | none => t

def uninitStep (insns : List Instr) (acc : Except LoadErr FlowTbl) (i : Nat) :
    Except LoadErr FlowTbl := do
  let tbl ← acc
  match insns.get? i, tbl.get? i with
  | some ins, some (some s) =>
    if (readsOf ins).all s then
      let out := rsAdd s (writesOf ins)
      .ok ((succsOf i ins).foldl (fun t j => tblJoin t j out) tbl)
    else .error (.uninitializedRead i)
  | _, _ => .ok tbl

/-- The forward dataflow pass: because all jumps are forward, one pass in
instruction order reaches the fixed point. -/
def uninitPass (insns : List Instr) : Except LoadErr Unit :=
  (((List.range insns.length).foldl (uninitStep insns)
      (.ok ((List.range insns.length).map (fun i => if i = 0 then some initRS else none))))).map
    (fun _ => ())

/-- Resource guard on the number of abstract states visited. -/
def maxComplexity : Nat := 1000000

/-- Modelled from the spec: the Verifier.  Accepts with the certified
instruction-visit budget, or rejects with a reason and instruction index. -/
def verify (reg : Registry) (ty : SecType) (insns : List Instr) : Except LoadErr Nat :=
  match firstErr memCheck 0 insns with
  | some e => .error e
  | none =>
    match firstErr (helperCheck reg ty) 0 insns with
    | some e => .error e
    | none =>
      match firstErr loopCheck 0 insns with
      | some e => .error e
      | none =>
        match uninitPass insns with
        | .error e => .error e
        | .ok () =>
          if insns.length ≤ maxComplexity then .ok (insns.length + 1)
          else .error .complexityExceeded

/-! ## Loader -/

/-- A named section of the object input. -/
structure ObjSection where
  name : String
  bytes : List Nat
  deriving DecidableEq, Repr

/-- The structured object container with named sections. -/
structure BpfObject where
  sections : List ObjSection
  deriving DecidableEq, Repr

/-- Byte-list prefix test used for section-name classification. -/
def hasPre : List Char → List Char → Bool
  | [], _ => true
  | _ :: _, [] => false
  | a :: as, b :: bs => a == b && hasPre as bs

/-- Modelled from the spec: classify the program type from the section-name
(`tracepoint/<category>/<event>`, or the `timer` channel); unrecognized
sections are ignored. -/
def classify (n : String) : Option SecType :=
  if hasPre "tracepoint/".data n.data then some .tracepoint
  else if n == "timer" then some .timer
  else none

/-- The executable sections of an object, with their classified types. -/
def progSections (o : BpfObject) : List (ObjSection × SecType) :=
  o.sections.filterMap (fun s => (classify s.name).map (fun ty => (s, ty)))

/-- The license sections of an object. -/
def licSections (o : BpfObject) : List ObjSection :=
  o.sections.filter (fun s => s.name == "license")

/-- Read the NUL-terminated license text out of a license section. -/
def parseLicense (bs : List Nat) : String :=
  String.mk ((bs.takeWhile (fun b => b != 0)).map Char.ofNat)

/-- Modelled from the spec: the recognized, compatible license strings. -/
def recognizedLicenses : List String := ["MIT", "GPL", "Dual MIT/Apache-2.0"]

/-- Effectful map over `Except`, failing at the first failing element. -/
def mapE (f : α → Except ε β) : List α → Except ε (List β)
  | [] => .ok []
  | a :: l => do
    let b ← f a
    let r ← mapE f l
    .ok (b :: r)

/-- The Program Table: a mapping from attachment point to accepted Program. -/
abbrev Table := List (String × Program)

def lookupTable (t : Table) (ap : String) : Option Program :=
  (t.find? (fun e => e.1 == ap)).map (fun e => e.2)

/-- Install a program at an attachment point, atomically replacing any
previous occupant. -/
def insertTable (t : Table) (e : String × Program) : Table :=
  e :: t.filter (fun x => x.1 != e.1)

def installAll (t : Table) (l : List (String × Program)) : Table :=
  l.foldl insertTable t

/-- Modelled from the spec: the per-section load pipeline,
Decoder → CFA → Verifier; an accepted section becomes a Program whose
verdict is `accepted` and whose budget is the one the Verifier certified. -/
def loadSection (reg : Registry) (ty : SecType) (bytes : List Nat) :
    Except LoadErr Program :=
  decode bytes >>= fun insns =>
  cfa insns >>= fun _ =>
  verify reg ty insns >>= fun budget =>
  .ok { ty := ty, insns := insns, budget := budget, verdict := .accepted }

/-- Modelled from the spec: the Loader.  Requires exactly one license section
with a recognized license, runs the pipeline on every recognized program
section, and installs all of them — or none, if any section fails. -/
def loadObject (reg : Registry) (o : BpfObject) (t : Table) : Except LoadErr Table :=
  match licSections o with
  | [l] =>
    if parseLicense l.bytes ∈ recognizedLicenses then
      match mapE (fun st => (loadSection reg st.2 st.1.bytes).map (fun p => (st.1.name, p)))
          (progSections o) with
      | .ok loaded => .ok (installAll t loaded)
      | .error e => .error e
    else .error .incompatibleLicense
  | _ => .error .missingLicense

/-! ## Execution Engine

Modelled from the spec: interprets a verified program against a fresh
register state and a bounded private scratch region; the certified
instruction-visit budget is the only bound on execution length; any runtime
condition the Verifier did not exclude aborts only the current dispatch with
an error sentinel. -/

/-- Runtime machine state: plain 64-bit machine words. -/
structure MState where
  regs : Nat → Nat
  stack : Nat → Nat

def st0 : MState := { regs := fun _ => 0, stack := fun _ => 0 }

def setReg (st : MState) (r v : Nat) : MState :=
  { st with regs := fun x => if x = r then v % W else st.regs x }

def setStack (st : MState) (off v : Nat) : MState :=
  { st with stack := fun x => if x = off then v % W else st.stack x }

/-- Read a 64-bit word as a signed result. -/
def toSigned (v : Nat) : Int :=
  if v < 2 ^ 63 then Int.ofNat v else Int.ofNat v - Int.ofNat W

/-- Store a signed helper result back into a 64-bit word. -/
def ofInt (v : Int) : Nat := (v % (Int.ofNat W)).toNat

def bump (r : Option Int × Nat) : Option Int × Nat := (r.1, r.2 + 1)

/-- The interpreter loop.  Fuel is the certified budget; the second
component counts interpreted instructions.  Out-of-range program counters,
out-of-bounds accesses and unresolvable helper calls — all excluded by the
Verifier for installed programs — trap deterministically with the sentinel
result `-1`. -/
def interpGo (reg : Registry) (insns : List Instr) (ctx : Ctx) (env : HelperEnv) :
    MState → Nat → Nat → Option Int × Nat
  | _, _, 0 => (none, 0)
  | st, pc, fuel + 1 =>
    match insns.get? pc with
    | none => (some (-1), 1)
    | some ins =>
      match ins with
      | .movImm d imm => bump (interpGo reg insns ctx env (setReg st d imm) (pc + 1) fuel)
      | .add d s =>
        bump (interpGo reg insns ctx env (setReg st d (st.regs d + st.regs s)) (pc + 1) fuel)
      | .jmp t => bump (interpGo reg insns ctx env st t fuel)
      | .jeqz r t =>
        bump (interpGo reg insns ctx env st (if st.regs r = 0 then t else pc + 1) fuel)
      | .ldStack d off =>
        if off < stackWords then
          bump (interpGo reg insns ctx env (setReg st d (st.stack off)) (pc + 1) fuel)
        else (some (-1), 1)
      | .stStack off s =>
        if off < stackWords then
          bump (interpGo reg insns ctx env (setStack st off (st.regs s)) (pc + 1) fuel)
        else (some (-1), 1)
      | .ldCtx d off =>
        if off < ctxWords then
          bump (interpGo reg insns ctx env (setReg st d (ctx off)) (pc + 1) fuel)
        else (some (-1), 1)
      | .call hid =>
        match helperSem reg hid with
        | some f =>
          bump (interpGo reg insns ctx env
            (setReg st 0 (ofInt (f env (st.regs 1) (st.regs 2)))) (pc + 1) fuel)
        | none => (some (-1), 1)
      | .exit => (some (toSigned (st.regs 0)), 1)

/-- Run an installed Program with its certified budget as fuel. -/
def runProgram (reg : Registry) (p : Program) (ctx : Ctx) (env : HelperEnv) :
    Option Int × Nat :=
  interpGo reg p.insns ctx env st0 0 p.budget

/-- Modelled from the spec: `dispatch(attachment_point, context)`.  A missing
attachment is not an error: it returns the neutral default zero. -/
def dispatch (reg : Registry) (t : Table) (ap : String) (ctx : Ctx) (env : HelperEnv) : Int :=
  match lookupTable t ap with
  | none => 0
  | some p =>
    match (runProgram reg p ctx env).1 with
    | some v => v
    | none => -1

/-! ## System state machine

Modelled from the spec: the Program Table is mutated only by load and
unload; dispatch reads it. -/

inductive SysOp where
  | loadOp (o : BpfObject)
  | unloadOp (ap : String)
  | dispatchOp (ap : String) (ctx : Ctx) (env : HelperEnv)

def step (t : Table) : SysOp → Table
  | .loadOp o =>
    match loadObject initialRegistry o t with
    | .ok u => u
    | .error _ => t
  | .unloadOp ap => t.filter (fun e => e.1 != ap)
  | .dispatchOp _ _ _ => t

/-- The table reached from the empty initial table by a sequence of
operations. -/
def runOps (ops : List SysOp) : Table := ops.foldl step []

/-! ## Concrete artifacts

The example object of the repository (`hello.bpf.c` compiled to bytecode,
as the file's header comment describes), plus the small programs used to
exercise the claims on concrete inputs. -/

/-- Bytecode of the `return 0` entry points of `hello.bpf.c`
(`mov r0, 0; exit`). -/
def hello_bpf_insns : List Instr := [.movImm 0 0, .exit]

/-- Byte encoding of `hello_bpf_insns`. -/
def helloBytes : List Nat := [0, 0, 0, 0, 0, 0, 0, 0, 8, 0, 0, 0, 0, 0, 0, 0]

/-- Bytes of the license section: the NUL-terminated string "MIT". -/
def licenseBytes : List Nat := [77, 73, 84, 0]

/-- An object holding exactly the tracepoint program section of the example
and its license section. -/
def helloObject : BpfObject :=
  { sections := [{ name := "tracepoint/syscalls/sys_enter", bytes := helloBytes },
                 { name := "license", bytes := licenseBytes }] }

/-- The Program produced by loading the example's tracepoint section. -/
def helloProgram : Program :=
  { ty := .tracepoint, insns := hello_bpf_insns, budget := 3, verdict := .accepted }

/-- The Program produced by loading the example's timer section. -/
def timerProgram : Program :=
  { ty := .timer, insns := hello_bpf_insns, budget := 3, verdict := .accepted }

/-- Bytecode of a program that dynamically returns 0 but carries a second,
unreachable return instruction (`exit; exit`). -/
def deadCodeBytes : List Nat := [8, 0, 0, 0, 0, 0, 0, 0, 8, 0, 0, 0, 0, 0, 0, 0]

/-- An object wrapping `deadCodeBytes` with an "MIT" license. -/
def deadCodeObject : BpfObject :=
  { sections := [{ name := "tracepoint/syscalls/sys_enter", bytes := deadCodeBytes },
                 { name := "license", bytes := licenseBytes }] }

/-- Bytecode with an out-of-bounds stack access at index 0 and an
unresolvable helper call at index 1 (`ldStack r0, word 512; call 99; exit`). -/
def oobCallBytes : List Nat :=
  [4, 0, 0, 0, 16, 0, 0, 0, 7, 0, 0, 0, 0, 99, 0, 0, 8, 0, 0, 0, 0, 0, 0, 0]

/-- Bytecode with only an out-of-bounds stack access
(`ldStack r0, word 512; exit`). -/
def oobBytes : List Nat := [4, 0, 0, 0, 16, 0, 0, 0, 8, 0, 0, 0, 0, 0, 0, 0]

/-- Bytecode whose entry instruction is an out-of-bounds stack access and
whose last instruction is unreachable
(`ldStack r0, word 512; exit; exit`). -/
def oobDeadBytes : List Nat :=
  [4, 0, 0, 0, 16, 0, 0, 0, 8, 0, 0, 0, 0, 0, 0, 0, 8, 0, 0, 0, 0, 0, 0, 0]

/-- Bytecode whose only defect is a call to the unregistered helper ID 99. -/
def badCallBytes : List Nat := [7, 0, 0, 0, 0, 99, 0, 0, 8, 0, 0, 0, 0, 0, 0, 0]

/-- An object wrapping `badCallBytes` with an "MIT" license. -/
def badCallObject : BpfObject :=
  { sections := [{ name := "tracepoint/syscalls/sys_enter", bytes := badCallBytes },
                 { name := "license", bytes := licenseBytes }] }

/-- Bytecode that fails decoding with an unknown opcode. -/
def badOpcodeBytes : List Nat := [9, 0, 0, 0, 0, 0, 0, 0]

/-- An object with two program sections, the second of which fails the
pipeline, plus a valid license. -/
def twoSecObject : BpfObject :=
  { sections := [{ name := "tracepoint/syscalls/sys_enter", bytes := helloBytes },
                 { name := "timer", bytes := badOpcodeBytes },
                 { name := "license", bytes := licenseBytes }] }

/-- Helper IDs called by an instruction sequence. -/
def helperCallsOf (l : List Instr) : List Nat :=
  l.filterMap (fun i =>
    match i with
    | .call h => some h
    | _ => none)

/-- A bytecode program returns 0 when every terminating run of the
interpreter on it, from the fresh machine state, yields the result 0. -/
def ReturnsZero (reg : Registry) (insns : List Instr) : Prop :=
  ∀ ctx env fuel v, (interpGo reg insns ctx env st0 0 fuel).1 = some v → v = 0

/-! ## Basic lemmas about the `Except` plumbing -/

theorem bind_ok_inv {ε α β : Type} {x : Except ε α} {f : α → Except ε β} {v : β}
    (h : x >>= f = Except.ok v) : ∃ a, x = Except.ok a ∧ f a = Except.ok v := by
  cases x with
  | error e => exact Except.noConfusion h
  | ok a => exact ⟨a, rfl, h⟩

theorem map_ok_inv {ε α β : Type} {x : Except ε α} {g : α → β} {b : β}
    (h : x.map g = Except.ok b) : ∃ a, x = Except.ok a ∧ g a = b := by
  cases x with
  | error e => exact Except.noConfusion h
  | ok a => exact ⟨a, rfl, Except.ok.inj h⟩

theorem bind_ok_left {ε α β : Type} (a : α) (f : α → Except ε β) :
    (Except.ok a >>= f) = f a := rfl

theorem bind_error_left {ε α β : Type} (e : ε) (f : α → Except ε β) :
    ((Except.error e : Except ε α) >>= f) = Except.error e := rfl

/-! ## Lemmas about `firstErr` -/

theorem firstErr_none_elem (f : Nat → Instr → Option LoadErr) :
    ∀ (l : List Instr) (k : Nat), firstErr f k l = none →
      ∀ j ins, l.get? j = some ins → f (k + j) ins = none := by
  intro l
  induction l with
  | nil => intro k _ j ins hj; exact Option.noConfusion hj
  | cons a rest ih =>
    intro k h j ins hj
    cases hfa : f k a with
    | some e => simp only [firstErr, hfa] at h; exact Option.noConfusion h
    | none =>
      simp only [firstErr, hfa] at h
      cases j with
      | zero =>
        have : a = ins := Option.some.inj hj
        subst this
        simpa using hfa
      | succ j1 =>
        have := ih (k + 1) h j1 ins hj
        have harith : k + (j1 + 1) = k + 1 + j1 := by omega
        rw [harith]
        exact this

theorem firstErr_none_of (f : Nat → Instr → Option LoadErr) :
    ∀ (l : List Instr) (k : Nat),
      (∀ j ins, l.get? j = some ins → f (k + j) ins = none) → firstErr f k l = none := by
  intro l
  induction l with
  | nil => intro k _; rfl
  | cons a rest ih =>
    intro k h
    have ha : f k a = none := by simpa using h 0 a rfl
    have hrest : firstErr f (k + 1) rest = none := by
      refine ih (k + 1) (fun j ins hj => ?_)
      have := h (j + 1) ins (by simpa using hj)
      have harith : k + (j + 1) = k + 1 + j := by omega
      rw [harith] at this
      exact this
    simp only [firstErr, ha, hrest]

theorem firstErr_finds (f : Nat → Instr → Option LoadErr) :
    ∀ (l : List Instr) (k j : Nat) (ins : Instr),
      l.get? j = some ins → f (k + j) ins ≠ none →
      ∃ j0 ins0 e0, j0 ≤ j ∧ l.get? j0 = some ins0 ∧ f (k + j0) ins0 = some e0 ∧
        firstErr f k l = some e0 ∧
        ∀ m insm, m < j0 → l.get? m = some insm → f (k + m) insm = none := by
  intro l
  induction l with
  | nil => intro k j ins hj _; exact Option.noConfusion hj
  | cons a rest ih =>
    intro k j ins hj hbad
    cases hfa : f k a with
    | some e =>
      refine ⟨0, a, e, Nat.zero_le j, rfl, by simpa using hfa, ?_, ?_⟩
      · simp only [firstErr, hfa]
      · intro m insm hm _; omega
    | none =>
      cases j with
      | zero =>
        have : a = ins := Option.some.inj hj
        subst this
        exact absurd (by simpa using hfa) hbad
      | succ j1 =>
        have hbad1 : f (k + 1 + j1) ins ≠ none := by
          have harith : k + 1 + j1 = k + (j1 + 1) := by omega
          rw [harith]
          exact hbad
        obtain ⟨j0, ins0, e0, hle, hget, hf0, hfe, hmin⟩ := ih (k + 1) j1 ins hj hbad1
        refine ⟨j0 + 1, ins0, e0, by omega, by simpa using hget, ?_, ?_, ?_⟩
        · have harith : k + (j0 + 1) = k + 1 + j0 := by omega
          rw [harith]
          exact hf0
        · simp only [firstErr, hfa]
          exact hfe
        · intro m insm hm hget2
          cases m with
          | zero =>
            have : a = insm := Option.some.inj hget2
            subst this
            simpa using hfa
          | succ m1 =>
            have := hmin m1 insm (by omega) (by simpa using hget2)
            have harith : k + (m1 + 1) = k + 1 + m1 := by omega
            rw [harith]
            exact this

/-! ## Lemmas about `mapE` -/

theorem mapE_ok_mem {α β : Type} (f : α → Except LoadErr β) :
    ∀ (l : List α) (r : List β), mapE f l = .ok r →
      ∀ b ∈ r, ∃ a ∈ l, f a = .ok b := by
  intro l
  induction l with
  | nil =>
    intro r h b hb
    have : ([] : List β) = r := Except.ok.inj h
    subst this
    exact absurd hb (List.not_mem_nil b)
  | cons a tl ih =>
    intro r h b hb
    unfold mapE at h
    obtain ⟨b0, hfa, h⟩ := bind_ok_inv h
    obtain ⟨r1, hmap, h⟩ := bind_ok_inv h
    have : b0 :: r1 = r := Except.ok.inj h
    subst this
    rcases List.mem_cons.mp hb with hb0 | hb1
    · subst hb0
      exact ⟨a, List.mem_cons_self a tl, hfa⟩
    · obtain ⟨a1, ha1, hfa1⟩ := ih r1 hmap b hb1
      exact ⟨a1, List.mem_cons_of_mem a ha1, hfa1⟩

theorem mapE_ok_all {α β : Type} (f : α → Except LoadErr β) :
    ∀ (l : List α) (r : List β), mapE f l = .ok r →
      ∀ a ∈ l, ∃ b, f a = .ok b := by
  intro l
  induction l with
  | nil => intro r _ a ha; exact absurd ha (List.not_mem_nil a)
  | cons a0 tl ih =>
    intro r h a ha
    unfold mapE at h
    obtain ⟨b0, hfa, h⟩ := bind_ok_inv h
    obtain ⟨r1, hmap, _⟩ := bind_ok_inv h
    rcases List.mem_cons.mp ha with h0 | h1
    · subst h0; exact ⟨b0, hfa⟩
    · exact ih r1 hmap a h1

theorem mapE_error_of {α β : Type} (f : α → Except LoadErr β) :
    ∀ (l : List α) (a : α), a ∈ l → (∃ e, f a = .error e) →
      ∃ e2, mapE f l = .error e2 := by
  intro l
  induction l with
  | nil => intro a ha _; exact absurd ha (List.not_mem_nil a)
  | cons a0 tl ih =>
    intro a ha herr
    rcases List.mem_cons.mp ha with h0 | h1
    · subst h0
      obtain ⟨e, he⟩ := herr
      exact ⟨e, by unfold mapE; rw [he]; rfl⟩
    · cases hfa : f a0 with
      | error e0 => exact ⟨e0, by unfold mapE; rw [hfa]; rfl⟩
      | ok b0 =>
        obtain ⟨e2, he2⟩ := ih a h1 herr
        refine ⟨e2, ?_⟩
        unfold mapE
        rw [hfa, bind_ok_left, he2]
        rfl

/-! ## Lemmas about the Program Table -/

theorem mem_insertTable {t : Table} {e x : String × Program}
    (h : x ∈ insertTable t e) : x = e ∨ x ∈ t := by
  rcases List.mem_cons.mp h with h0 | h1
  · exact Or.inl h0
  · exact Or.inr (List.mem_of_mem_filter h1)

theorem mem_installAll : ∀ (l : List (String × Program)) (t : Table) (x : String × Program),
    x ∈ installAll t l → x ∈ t ∨ x ∈ l := by
  intro l
  induction l with
  | nil => intro t x h; exact Or.inl h
  | cons e tl ih =>
    intro t x h
    rcases ih (insertTable t e) x h with h2 | h2
    · rcases mem_insertTable h2 with h3 | h3
      · exact Or.inr (h3 ▸ List.mem_cons_self e tl)
      · exact Or.inl h3
    · exact Or.inr (List.mem_cons_of_mem e h2)

theorem lookup_insertTable (t : Table) (e : String × Program) :
    lookupTable (insertTable t e) e.1 = some e.2 := by
  unfold lookupTable insertTable
  rw [List.find?_cons_of_pos _ (by simp)]
  rfl

/-! ## Inversion lemmas for the pipeline stages -/

theorem memCheck_none {i : Nat} {ins : Instr} (h : memCheck i ins = none) :
    unboundedAccess ins = false := by
  unfold memCheck at h
  by_cases hb : unboundedAccess ins = true
  · rw [if_pos hb] at h; exact Option.noConfusion h
  · exact Bool.not_eq_true _ ▸ hb

theorem memCheck_some {i : Nat} {ins : Instr} {e : LoadErr} (h : memCheck i ins = some e) :
    e = .outOfBoundsAccess i ∧ unboundedAccess ins = true := by
  unfold memCheck at h
  by_cases hb : unboundedAccess ins = true
  · rw [if_pos hb] at h
    exact ⟨(Option.some.inj h).symm, hb⟩
  · rw [if_neg hb] at h
    exact Option.noConfusion h

theorem helperCheck_some {reg : Registry} {ty : SecType} {i : Nat} {ins : Instr} {e : LoadErr}
    (h : helperCheck reg ty i ins = some e) :
    e = .unknownHelper i ∨ e = .helperNotPermitted i := by
  unfold helperCheck at h
  cases ins with
  | call hid =>
    cases hf : findHelper reg hid with
    | none =>
      simp only [hf] at h
      exact Or.inl (Option.some.inj h).symm
    | some d =>
      simp only [hf] at h
      by_cases hp : ty ∈ d.permitted
      · rw [if_pos hp] at h; exact Option.noConfusion h
      · rw [if_neg hp] at h
        exact Or.inr (Option.some.inj h).symm
  | movImm d imm => exact Option.noConfusion h
  | add d s => exact Option.noConfusion h
  | jmp t => exact Option.noConfusion h
  | jeqz r t => exact Option.noConfusion h
  | ldStack d off => exact Option.noConfusion h
  | stStack off s => exact Option.noConfusion h
  | ldCtx d off => exact Option.noConfusion h
  | exit => exact Option.noConfusion h

theorem succs_lt_of_rangeOk {insns : List Instr}
    (h : firstErr (rangeCheck insns.length) 0 insns = none)
    {i : Nat} {ins : Instr} {j : Nat} (hi : insns.get? i = some ins)
    (hj : j ∈ succsOf i ins) : j < insns.length := by
  have hr : rangeCheck insns.length i ins = none := by
    simpa using firstErr_none_elem _ insns 0 h i ins hi
  unfold rangeCheck at hr
  by_cases hall : (succsOf i ins).all (fun j => j < insns.length) = true
  · have := List.all_eq_true.mp hall j hj
    exact of_decide_eq_true this
  · rw [if_neg hall] at hr
    exact Option.noConfusion hr

theorem succs_forward_of_loopOk {insns : List Instr}
    (h : firstErr loopCheck 0 insns = none)
    {i : Nat} {ins : Instr} {j : Nat} (hi : insns.get? i = some ins)
    (hj : j ∈ succsOf i ins) : i < j := by
  have hc : loopCheck i ins = none := by
    simpa using firstErr_none_elem _ insns 0 h i ins hi
  cases ins with
  | jmp t =>
    simp only [loopCheck] at hc
    by_cases hit : i < t
    · simp only [succsOf, List.mem_singleton] at hj
      omega
    · rw [if_neg hit] at hc; exact Option.noConfusion hc
  | jeqz r t =>
    simp only [loopCheck] at hc
    by_cases hit : i < t
    · simp only [succsOf, List.mem_cons, List.mem_singleton] at hj
      rcases hj with hj | hj | hj
      · omega
      · omega
      · exact absurd hj (List.not_mem_nil j)
    · rw [if_neg hit] at hc; exact Option.noConfusion hc
  | movImm d imm => simp only [succsOf, List.mem_singleton] at hj; omega
  | add d s => simp only [succsOf, List.mem_singleton] at hj; omega
  | ldStack d off => simp only [succsOf, List.mem_singleton] at hj; omega
  | stStack off s => simp only [succsOf, List.mem_singleton] at hj; omega
  | ldCtx d off => simp only [succsOf, List.mem_singleton] at hj; omega
  | call hid => simp only [succsOf, List.mem_singleton] at hj; omega
  | exit => exact absurd hj (List.not_mem_nil j)

theorem verify_ok_inv {reg : Registry} {ty : SecType} {insns : List Instr} {n : Nat}
    (h : verify reg ty insns = .ok n) :
    firstErr memCheck 0 insns = none ∧ firstErr (helperCheck reg ty) 0 insns = none ∧
      firstErr loopCheck 0 insns = none ∧ n = insns.length + 1 := by
  unfold verify at h
  cases h1 : firstErr memCheck 0 insns with
  | some e => simp only [h1] at h; exact Except.noConfusion h
  | none =>
    simp only [h1] at h
    cases h2 : firstErr (helperCheck reg ty) 0 insns with
    | some e => simp only [h2] at h; exact Except.noConfusion h
    | none =>
      simp only [h2] at h
      cases h3 : firstErr loopCheck 0 insns with
      | some e => simp only [h3] at h; exact Except.noConfusion h
      | none =>
        simp only [h3] at h
        cases h4 : uninitPass insns with
        | error e => simp only [h4] at h; exact Except.noConfusion h
        | ok u =>
          cases u
          simp only [h4] at h
          by_cases h5 : insns.length ≤ maxComplexity
          · rw [if_pos h5] at h
            exact ⟨rfl, rfl, rfl, (Except.ok.inj h).symm⟩
          · rw [if_neg h5] at h
            exact Except.noConfusion h

theorem cfa_ok_inv {insns : List Instr} (h : cfa insns = .ok ()) :
    insns ≠ [] ∧ firstErr (rangeCheck insns.length) 0 insns = none := by
  unfold cfa at h
  by_cases h0 : insns.isEmpty = true
  · rw [if_pos h0] at h; exact Except.noConfusion h
  · rw [if_neg h0] at h
    refine ⟨fun hnil => h0 (by simp [hnil]), ?_⟩
    cases h1 : firstErr (rangeCheck insns.length) 0 insns with
    | some e => simp only [h1] at h; exact Except.noConfusion h
    | none => rfl

theorem loadSection_ok_inv {reg : Registry} {ty : SecType} {bytes : List Nat} {p : Program}
    (h : loadSection reg ty bytes = .ok p) :
    decode bytes = .ok p.insns ∧ cfa p.insns = .ok () ∧
      verify reg ty p.insns = .ok p.budget ∧ p.verdict = .accepted ∧ p.ty = ty := by
  unfold loadSection at h
  obtain ⟨insns, hdec, h⟩ := bind_ok_inv h
  obtain ⟨u, hcfa, h⟩ := bind_ok_inv h
  obtain ⟨budget, hver, h⟩ := bind_ok_inv h
  cases u
  cases Except.ok.inj h
  exact ⟨hdec, hcfa, hver, rfl, rfl⟩

/-! ## Lemmas about the interpreter -/

theorem interp_steps_le (reg : Registry) (insns : List Instr) (ctx : Ctx) (env : HelperEnv) :
    ∀ (fuel : Nat) (st : MState) (pc : Nat),
      (interpGo reg insns ctx env st pc fuel).2 ≤ fuel := by
  intro fuel
  induction fuel with
  | zero => intro st pc; simp [interpGo]
  | succ n ih =>
    intro st pc
    cases hpc : insns[pc]? with
    | none => simp [interpGo, hpc]
    | some ins =>
      cases ins with
      | movImm d imm => simpa [interpGo, hpc, bump] using Nat.succ_le_succ (ih _ _)
      | add d s => simpa [interpGo, hpc, bump] using Nat.succ_le_succ (ih _ _)
      | jmp t => simpa [interpGo, hpc, bump] using Nat.succ_le_succ (ih _ _)
      | jeqz r t => simpa [interpGo, hpc, bump] using Nat.succ_le_succ (ih _ _)
      | ldStack d off =>
        by_cases hb : off < stackWords
        · simpa [interpGo, hpc, bump, hb] using Nat.succ_le_succ (ih _ _)
        · simp [interpGo, hpc, hb]
      | stStack off s =>
        by_cases hb : off < stackWords
        · simpa [interpGo, hpc, bump, hb] using Nat.succ_le_succ (ih _ _)
        · simp [interpGo, hpc, hb]
      | ldCtx d off =>
        by_cases hb : off < ctxWords
        · simpa [interpGo, hpc, bump, hb] using Nat.succ_le_succ (ih _ _)
        · simp [interpGo, hpc, hb]
      | call hid =>
        cases hs : helperSem reg hid with
        | none => simp [interpGo, hpc, hs]
        | some fh => simpa [interpGo, hpc, hs, bump] using Nat.succ_le_succ (ih _ _)
      | exit => simp [interpGo, hpc]

theorem interp_isSome (reg : Registry) (insns : List Instr) (ctx : Ctx) (env : HelperEnv)
    (hR : ∀ i ins j, insns.get? i = some ins → j ∈ succsOf i ins → j < insns.length)
    (hF : ∀ i ins j, insns.get? i = some ins → j ∈ succsOf i ins → i < j) :
    ∀ (fuel : Nat) (st : MState) (pc : Nat), pc < insns.length → insns.length ≤ pc + fuel →
      ((interpGo reg insns ctx env st pc fuel).1).isSome = true := by
  intro fuel
  induction fuel with
  | zero => intro st pc h1 h2; omega
  | succ n ih =>
    intro st pc h1 h2
    cases hpc : insns[pc]? with
    | none => simp [interpGo, hpc]
    | some ins =>
      have hget : insns.get? pc = some ins := by
        rw [List.get?_eq_getElem?]; exact hpc
      cases ins with
      | movImm d imm =>
        have hlt := hR pc _ (pc + 1) hget (by simp [succsOf])
        simpa [interpGo, hpc, bump] using ih _ (pc + 1) hlt (by omega)
      | add d s =>
        have hlt := hR pc _ (pc + 1) hget (by simp [succsOf])
        simpa [interpGo, hpc, bump] using ih _ (pc + 1) hlt (by omega)
      | jmp t =>
        have hmem : t ∈ succsOf pc (Instr.jmp t) := by simp [succsOf]
        have hlt := hR pc _ t hget hmem
        have hfw := hF pc _ t hget hmem
        simpa [interpGo, hpc, bump] using ih _ t hlt (by omega)
      | jeqz r t =>
        have hmem : t ∈ succsOf pc (Instr.jeqz r t) := by simp [succsOf]
        have hlt := hR pc _ t hget hmem
        have hfw := hF pc _ t hget hmem
        have hlt2 := hR pc _ (pc + 1) hget (by simp [succsOf])
        by_cases hz : st.regs r = 0
        · simpa [interpGo, hpc, bump, hz] using ih _ t hlt (by omega)
        · simpa [interpGo, hpc, bump, hz] using ih _ (pc + 1) hlt2 (by omega)
      | ldStack d off =>
        by_cases hb : off < stackWords
        · have hlt := hR pc _ (pc + 1) hget (by simp [succsOf])
          simpa [interpGo, hpc, bump, hb] using ih _ (pc + 1) hlt (by omega)
        · simp [interpGo, hpc, hb]
      | stStack off s =>
        by_cases hb : off < stackWords
        · have hlt := hR pc _ (pc + 1) hget (by simp [succsOf])
          simpa [interpGo, hpc, bump, hb] using ih _ (pc + 1) hlt (by omega)
        · simp [interpGo, hpc, hb]
      | ldCtx d off =>
        by_cases hb : off < ctxWords
        · have hlt := hR pc _ (pc + 1) hget (by simp [succsOf])
          simpa [interpGo, hpc, bump, hb] using ih _ (pc + 1) hlt (by omega)
        · simp [interpGo, hpc, hb]
      | call hid =>
        cases hs : helperSem reg hid with
        | none => simp [interpGo, hpc, hs]
        | some fh =>
          have hlt := hR pc _ (pc + 1) hget (by simp [succsOf])
          simpa [interpGo, hpc, hs, bump] using ih _ (pc + 1) hlt (by omega)
      | exit => simp [interpGo, hpc]

theorem interp_reg_indep {reg reg2 : Registry}
    (hsem : ∀ hid, helperSem reg hid = helperSem reg2 hid)
    (insns : List Instr) (ctx : Ctx) (env : HelperEnv) :
    ∀ (fuel : Nat) (st : MState) (pc : Nat),
      interpGo reg insns ctx env st pc fuel = interpGo reg2 insns ctx env st pc fuel := by
  intro fuel
  induction fuel with
  | zero => intro st pc; rfl
  | succ n ih =>
    intro st pc
    cases hpc : insns[pc]? with
    | none => simp [interpGo, hpc]
    | some ins =>
      cases ins with
      | movImm d imm => simp [interpGo, hpc, ih]
      | add d s => simp [interpGo, hpc, ih]
      | jmp t => simp [interpGo, hpc, ih]
      | jeqz r t => simp [interpGo, hpc, ih]
      | ldStack d off => simp [interpGo, hpc, ih]
      | stStack off s => simp [interpGo, hpc, ih]
      | ldCtx d off => simp [interpGo, hpc, ih]
      | call hid =>
        cases hs : helperSem reg2 hid with
        | none => simp [interpGo, hpc, hsem hid, hs]
        | some fh => simp [interpGo, hpc, hsem hid, hs, ih]
      | exit => simp [interpGo, hpc]

/-! ## Lemmas about the Loader and the state machine -/

theorem loadObject_inv {reg : Registry} {o : BpfObject} {t u : Table}
    (h : loadObject reg o t = .ok u)
    (hinv : ∀ e ∈ t, e.2.verdict = .accepted) :
    ∀ x ∈ u, x.2.verdict = .accepted := by
  intro x hx
  unfold loadObject at h
  rcases hls : licSections o with _ | ⟨l, _ | ⟨l2, ls⟩⟩
  · simp only [hls] at h; exact Except.noConfusion h
  · simp only [hls] at h
    by_cases hlic : parseLicense l.bytes ∈ recognizedLicenses
    · rw [if_pos hlic] at h
      cases hm : mapE (fun st => (loadSection reg st.2 st.1.bytes).map fun p => (st.1.name, p))
          (progSections o) with
      | error e => simp only [hm] at h; exact Except.noConfusion h
      | ok loaded =>
        simp only [hm] at h
        have hu : installAll t loaded = u := Except.ok.inj h
        rw [← hu] at hx
        rcases mem_installAll loaded t x hx with hxt | hxl
        · exact hinv x hxt
        · obtain ⟨a, _, hfa⟩ := mapE_ok_mem _ (progSections o) loaded hm x hxl
          obtain ⟨p, hp, hgp⟩ := map_ok_inv hfa
          have hv := (loadSection_ok_inv hp).2.2.2.1
          rw [← hgp]
          exact hv
    · rw [if_neg hlic] at h; exact Except.noConfusion h
  · simp only [hls] at h; exact Except.noConfusion h

theorem loadObject_error_of_section {reg : Registry} {o : BpfObject} {t : Table}
    {s : ObjSection × SecType} (hs : s ∈ progSections o) {e : LoadErr}
    (herr : loadSection reg s.2 s.1.bytes = .error e) :
    ∃ e2, loadObject reg o t = .error e2 := by
  unfold loadObject
  rcases hls : licSections o with _ | ⟨l, _ | ⟨l2, ls⟩⟩
  · exact ⟨.missingLicense, by simp only [hls]⟩
  · by_cases hlic : parseLicense l.bytes ∈ recognizedLicenses
    · have hfa : (loadSection reg s.2 s.1.bytes).map (fun p => (s.1.name, p)) =
          Except.error e := by rw [herr]; rfl
      obtain ⟨e2, hm⟩ := mapE_error_of
        (fun st => (loadSection reg st.2 st.1.bytes).map (fun p => (st.1.name, p)))
        (progSections o) s hs ⟨e, hfa⟩
      refine ⟨e2, ?_⟩
      simp only [hls]
      rw [if_pos hlic]
      simp only [hm]
    · exact ⟨.incompatibleLicense, by simp only [hls]; rw [if_neg hlic]⟩
  · exact ⟨.missingLicense, by simp only [hls]⟩

theorem loadObject_ok_sections {reg : Registry} {o : BpfObject} {t u : Table}
    (h : loadObject reg o t = .ok u) :
    ∀ s ∈ progSections o, ∃ p, loadSection reg s.2 s.1.bytes = .ok p := by
  intro s hs
  unfold loadObject at h
  rcases hls : licSections o with _ | ⟨l, _ | ⟨l2, ls⟩⟩
  · simp only [hls] at h; exact Except.noConfusion h
  · simp only [hls] at h
    by_cases hlic : parseLicense l.bytes ∈ recognizedLicenses
    · rw [if_pos hlic] at h
      cases hm : mapE (fun st => (loadSection reg st.2 st.1.bytes).map fun p => (st.1.name, p))
          (progSections o) with
      | error e => simp only [hm] at h; exact Except.noConfusion h
      | ok loaded =>
        obtain ⟨b, hb⟩ := mapE_ok_all _ (progSections o) loaded hm s hs
        obtain ⟨p, hp, _⟩ := map_ok_inv hb
        exact ⟨p, hp⟩
    · rw [if_neg hlic] at h; exact Except.noConfusion h
  · simp only [hls] at h; exact Except.noConfusion h

theorem step_inv {t : Table} (hinv : ∀ e ∈ t, e.2.verdict = .accepted) (op : SysOp) :
    ∀ x ∈ step t op, x.2.verdict = .accepted := by
  intro x hx
  cases op with
  | loadOp o =>
    simp only [step] at hx
    cases h : loadObject initialRegistry o t with
    | ok u => simp only [h] at hx; exact loadObject_inv h hinv x hx
    | error e => simp only [h] at hx; exact hinv x hx
  | unloadOp ap =>
    simp only [step] at hx
    exact hinv x (List.mem_of_mem_filter hx)
  | dispatchOp ap ctx env => exact hinv x hx

theorem runOps_inv_aux : ∀ (ops : List SysOp) (t : Table),
    (∀ e ∈ t, e.2.verdict = .accepted) →
    ∀ x ∈ ops.foldl step t, x.2.verdict = .accepted := by
  intro ops
  induction ops with
  | nil => intro t h x hx; exact h x hx
  | cons op rest ih => intro t h x hx; exact ih (step t op) (step_inv h op) x hx

/-! ## Claims -/

/-- C3 counterexample: the claim as stated fails.  The bytecode below
decodes, its entry instruction is a memory access that is reachable from the
entry block (it is in the CFA's reachable set) and whose stack offset 512
lies outside the 64-word stack frame, yet load rejects with
`UnreachableCode 2`, not `OutOfBoundsAccess`: the pipeline runs the CFA —
which rejects the unreachable trailing instruction — before the Verifier
ever checks memory bounds. -/
theorem oob_rejection_counterexample :
    decode oobDeadBytes = .ok [.ldStack 0 512, .exit, .exit] ∧
    ([Instr.ldStack 0 512, Instr.exit, Instr.exit] : List Instr).get? 0 =
      some (Instr.ldStack 0 512) ∧
    0 ∈ reachSet [Instr.ldStack 0 512, Instr.exit, Instr.exit] ∧
    unboundedAccess (Instr.ldStack 0 512) = true ∧
    loadSection initialRegistry .tracepoint oobDeadBytes = .error (.unreachableCode 2) :=
  ⟨rfl, rfl, by decide, rfl, rfl⟩

/-- C3 (amended): for every bytecode input that decodes and passes
control-flow analysis (after which every instruction is reachable from the
entry block, since the CFA rejects programs with unreachable instructions)
and that contains a memory access whose address is not statically bounded
within its region, the load pipeline rejects with `OutOfBoundsAccess`
carrying the instruction index of the first offending access. -/
theorem load_rejects_oob_access (reg : Registry) (ty : SecType) (bytes : List Nat)
    (insns : List Instr) (i : Nat) (ins : Instr)
    (hdec : decode bytes = .ok insns) (hcfa : cfa insns = .ok ())
    (hi : insns.get? i = some ins) (hbad : unboundedAccess ins = true) :
    ∃ j insj, insns.get? j = some insj ∧ unboundedAccess insj = true ∧
      (∀ m insm, m < j → insns.get? m = some insm → unboundedAccess insm = false) ∧
      loadSection reg ty bytes = .error (.outOfBoundsAccess j) := by
  have hbad2 : memCheck (0 + i) ins ≠ none := by
    simp [memCheck, hbad]
  obtain ⟨j0, ins0, e0, _, hget, hf0, hfe, hmin⟩ :=
    firstErr_finds memCheck insns 0 i ins hi hbad2
  have hf0n : memCheck j0 ins0 = some e0 := by simpa using hf0
  obtain ⟨he0, hub⟩ := memCheck_some hf0n
  have hver : verify reg ty insns = .error (.outOfBoundsAccess j0) := by
    unfold verify
    simp only [hfe]
    rw [he0]
  refine ⟨j0, ins0, hget, hub, ?_, ?_⟩
  · intro m insm hm hgm
    exact memCheck_none (by simpa using hmin m insm hm hgm)
  · simp only [loadSection, hdec, bind_ok_left, hcfa, hver, bind_error_left]

/-- C3 witness: a concrete program whose only instruction before `exit` is a
stack access at word offset 512, outside the 64-word stack frame. -/
theorem load_rejects_oob_access_witness :
    ∃ j insj, ([Instr.ldStack 0 512, Instr.exit] : List Instr).get? j = some insj ∧
      unboundedAccess insj = true ∧
      (∀ m insm, m < j → ([Instr.ldStack 0 512, Instr.exit] : List Instr).get? m = some insm →
        unboundedAccess insm = false) ∧
      loadSection initialRegistry .tracepoint oobBytes = .error (.outOfBoundsAccess j) :=
  load_rejects_oob_access initialRegistry .tracepoint oobBytes
    [Instr.ldStack 0 512, Instr.exit] 0 (Instr.ldStack 0 512) rfl rfl rfl rfl

/-- C5: verification is deterministic.  The pipeline is a pure function of
the input bytes and the section type, so two runs on identical input yield
the identical verdict, and on rejection the identical reason and instruction
index (both carried inside the `LoadErr` value). -/
theorem verification_deterministic (reg : Registry) (ty : SecType) (bytes : List Nat) :
    loadSection reg ty bytes = loadSection reg ty bytes ∧
    ∀ r1 r2 : Except LoadErr Program,
      loadSection reg ty bytes = r1 → loadSection reg ty bytes = r2 → r1 = r2 :=
  ⟨rfl, fun _ _ h1 h2 => h1.symm.trans h2⟩

/-- C5 witness: two runs on the example bytecode agree. -/
theorem verification_deterministic_witness :
    loadSection initialRegistry .tracepoint helloBytes = .ok helloProgram :=
  (verification_deterministic initialRegistry .tracepoint helloBytes).2
    (loadSection initialRegistry .tracepoint helloBytes) (.ok helloProgram) rfl rfl

/-- C6: a dispatch of an accepted Program interprets no more instructions
than the budget the Verifier certified for it at verification time, and
terminates (produces a result) within that bound. -/
theorem dispatch_within_certified_budget (reg : Registry) (ty : SecType) (bytes : List Nat)
    (p : Program) (hok : loadSection reg ty bytes = .ok p) :
    verify reg ty p.insns = .ok p.budget ∧
    ∀ ctx env, (runProgram reg p ctx env).2 ≤ p.budget ∧
      ((runProgram reg p ctx env).1).isSome = true := by
  obtain ⟨hdec, hcfa, hver, hverd, hty⟩ := loadSection_ok_inv hok
  refine ⟨hver, fun ctx env => ⟨interp_steps_le reg p.insns ctx env p.budget st0 0, ?_⟩⟩
  obtain ⟨hne, hrange⟩ := cfa_ok_inv hcfa
  obtain ⟨hmem, hhelp, hloop, hbud⟩ := verify_ok_inv hver
  have hR : ∀ i ins j, p.insns.get? i = some ins → j ∈ succsOf i ins → j < p.insns.length :=
    fun i ins j hi hj => succs_lt_of_rangeOk hrange hi hj
  have hF : ∀ i ins j, p.insns.get? i = some ins → j ∈ succsOf i ins → i < j :=
    fun i ins j hi hj => succs_forward_of_loopOk hloop hi hj
  have h0 : 0 < p.insns.length := List.length_pos.mpr hne
  exact interp_isSome reg p.insns ctx env hR hF p.budget st0 0 h0 (by omega)

/-- C6 witness: the example program runs within its certified budget. -/
theorem dispatch_within_certified_budget_witness :
    verify initialRegistry .tracepoint helloProgram.insns = .ok helloProgram.budget ∧
    (runProgram initialRegistry helloProgram (fun _ => 0) ⟨0⟩).2 ≤ helloProgram.budget ∧
    ((runProgram initialRegistry helloProgram (fun _ => 0) ⟨0⟩).1).isSome = true := by
  have h := dispatch_within_certified_budget initialRegistry .tracepoint helloBytes
    helloProgram rfl
  exact ⟨h.1, (h.2 (fun _ => 0) ⟨0⟩).1, (h.2 (fun _ => 0) ⟨0⟩).2⟩

/-- C7 counterexample: the claim as stated fails on a program that contains
both an out-of-bounds memory access and a call to an unresolvable helper ID.
The deterministic verifier reports the out-of-bounds access first, so load
rejects with `OutOfBoundsAccess`, not `UnknownHelper` or
`HelperNotPermitted`, even though the bytecode decodes, passes control-flow
analysis and contains a call to helper ID 99 which does not resolve. -/
theorem helper_rejection_counterexample :
    decode oobCallBytes = .ok [.ldStack 0 512, .call 99, .exit] ∧
    cfa [Instr.ldStack 0 512, Instr.call 99, Instr.exit] = .ok () ∧
    findHelper initialRegistry 99 = none ∧
    loadSection initialRegistry .tracepoint oobCallBytes = .error (.outOfBoundsAccess 0) :=
  ⟨rfl, rfl, rfl, rfl⟩

/-- C7 (amended): for every program whose bytecode decodes, passes
control-flow analysis and contains no out-of-bounds memory access, a call to
a helper ID that does not resolve in the Helper Registry or is not permitted
for the program's section type makes load reject at load time with
`UnknownHelper` or `HelperNotPermitted`; any object carrying such a section
fails to load entirely (so the program never reaches dispatch); and the
Execution Engine depends on the registry only through helper semantics,
never through the permission sets, so helper permission is not re-checked at
call time. -/
theorem load_rejects_bad_helper (reg : Registry) (ty : SecType) (bytes : List Nat)
    (insns : List Instr) (i : Nat) (ins : Instr)
    (hdec : decode bytes = .ok insns) (hcfa : cfa insns = .ok ())
    (hnoob : ∀ m insm, insns.get? m = some insm → unboundedAccess insm = false)
    (hi : insns.get? i = some ins) (hbad : helperCheck reg ty i ins ≠ none) :
    (∃ j insj e, insns.get? j = some insj ∧ helperCheck reg ty j insj = some e ∧
      (e = .unknownHelper j ∨ e = .helperNotPermitted j) ∧
      loadSection reg ty bytes = .error e) ∧
    (∀ (o : BpfObject) (t : Table) (s : ObjSection × SecType), s ∈ progSections o →
      s.1.bytes = bytes → s.2 = ty → ∃ e2, loadObject reg o t = .error e2) ∧
    (∀ reg2 : Registry, (∀ hid, helperSem reg hid = helperSem reg2 hid) →
      ∀ (insns2 : List Instr) (ctx : Ctx) (env : HelperEnv) (st : MState) (pc fuel : Nat),
        interpGo reg insns2 ctx env st pc fuel = interpGo reg2 insns2 ctx env st pc fuel) := by
  have hmemnone : firstErr memCheck 0 insns = none := by
    refine firstErr_none_of _ insns 0 (fun j insj hj => ?_)
    simp [memCheck, hnoob j insj hj]
  have hbad2 : helperCheck reg ty (0 + i) ins ≠ none := by simpa using hbad
  obtain ⟨j0, ins0, e0, _, hget, hf0, hfe, _⟩ :=
    firstErr_finds (helperCheck reg ty) insns 0 i ins hi hbad2
  have hf0n : helperCheck reg ty j0 ins0 = some e0 := by simpa using hf0
  have hkind := helperCheck_some hf0n
  have hver : verify reg ty insns = .error e0 := by
    unfold verify
    simp only [hmemnone, hfe]
  have hsec : loadSection reg ty bytes = .error e0 := by
    simp only [loadSection, hdec, bind_ok_left, hcfa, hver, bind_error_left]
  refine ⟨⟨j0, ins0, e0, hget, hf0n, hkind, hsec⟩, ?_, ?_⟩
  · intro o t s hs hb hty
    exact @loadObject_error_of_section reg o t s hs e0 (by rw [hb, hty]; exact hsec)
  · intro reg2 hsem insns2 ctx env st pc fuel
    exact interp_reg_indep hsem insns2 ctx env fuel st pc

/-- C7 witness: a clean program calling the unregistered helper ID 99 is
rejected with `UnknownHelper`, and its object fails to load. -/
theorem load_rejects_bad_helper_witness :
    (∃ j insj e, ([Instr.call 99, Instr.exit] : List Instr).get? j = some insj ∧
      helperCheck initialRegistry .tracepoint j insj = some e ∧
      (e = .unknownHelper j ∨ e = .helperNotPermitted j) ∧
      loadSection initialRegistry .tracepoint badCallBytes = .error e) ∧
    (∃ e2, loadObject initialRegistry badCallObject [] = .error e2) := by
  have h := load_rejects_bad_helper initialRegistry .tracepoint badCallBytes
    [Instr.call 99, Instr.exit] 0 (Instr.call 99) rfl rfl ?hnoob rfl ?hbad
  case hnoob =>
    intro m insm hm
    match m, hm with
    | 0, hm => cases Option.some.inj hm; rfl
    | 1, hm => cases Option.some.inj hm; rfl
  case hbad => intro hc; exact Option.noConfusion hc
  exact ⟨h.1, h.2.1 badCallObject []
    ({ name := "tracepoint/syscalls/sys_enter", bytes := badCallBytes }, .tracepoint)
    (by decide) rfl rfl⟩

/-- C8: a dispatch to an attachment point with no installed Program is not
an error: it returns the neutral default result zero. -/
theorem dispatch_missing_attachment (reg : Registry) (t : Table) (ap : String)
    (ctx : Ctx) (env : HelperEnv) (h : lookupTable t ap = none) :
    dispatch reg t ap ctx env = 0 := by
  unfold dispatch
  simp only [h]

/-- C8 witness: dispatching on the empty table returns zero. -/
theorem dispatch_missing_attachment_witness :
    dispatch initialRegistry [] hello_section (fun _ => 0) ⟨0⟩ = 0 :=
  dispatch_missing_attachment initialRegistry [] hello_section (fun _ => 0) ⟨0⟩ rfl

/-- C9: the helper-call ABI binds ID 1 (the source's
`BPF_FUNC_ktime_get_ns`) to the time-source helper, whose result is the
64-bit nanosecond counter of the host environment, and ID 2 (the source's
`BPF_FUNC_trace_printk`) to the trace-output helper, which takes a buffer
pointer and a length and returns the number of bytes written or a negative
error code. -/
theorem helper_abi_bindings :
    findHelper initialRegistry BPF_FUNC_ktime_get_ns = some ktimeDesc ∧
    findHelper initialRegistry BPF_FUNC_trace_printk = some traceDesc ∧
    (∀ env a b, ktimeDesc.sem env a b = Int.ofNat (env.now % W) ∧
      0 ≤ ktimeDesc.sem env a b ∧ ktimeDesc.sem env a b < Int.ofNat W) ∧
    (∀ env buf len, traceDesc.sem env buf len = Int.ofNat len ∨
      traceDesc.sem env buf len < 0) := by
  refine ⟨rfl, rfl, fun env a b => ⟨rfl, Int.ofNat_nonneg _, ?_⟩, fun env buf len => ?_⟩
  · exact Int.ofNat_lt.mpr (Nat.mod_lt _ (by decide))
  · by_cases hb : buf + len ≤ stackWords * 8
    · exact Or.inl (by simp [traceDesc, traceSem, hb])
    · exact Or.inr (by simp [traceDesc, traceSem, hb])

/-- C10: both entry points of the example program, `hello_bpf` in the
tracepoint section and `timer_tick` in the timer section, return 0 for every
context, the result is independent of the context argument, their bytecode
contains no helper call, and the Execution Engine's run of each installed
program agrees with the C function. -/
theorem example_entry_points_return_zero :
    (∀ ctx : Ctx, hello_bpf ctx = 0) ∧ (∀ ctx : Ctx, timer_tick ctx = 0) ∧
    (∀ c1 c2 : Ctx, hello_bpf c1 = hello_bpf c2 ∧ timer_tick c1 = timer_tick c2) ∧
    helperCallsOf hello_bpf_insns = [] ∧
    (∀ ctx env, (runProgram initialRegistry helloProgram ctx env).1 = some (hello_bpf ctx) ∧
      (runProgram initialRegistry timerProgram ctx env).1 = some (timer_tick ctx)) :=
  ⟨fun _ => rfl, fun _ => rfl, fun _ _ => ⟨rfl, rfl⟩, rfl, fun _ _ => ⟨rfl, rfl⟩⟩

/-- C2: under any sequence of load, unload and dispatch operations from the
empty initial state, every Program stored in the Program Table has verdict
`accepted`; dispatch reads only the Program Table, so a not-yet-verified or
rejected Program is never runtime-reachable. -/
theorem program_table_only_accepted (ops : List SysOp) :
    ∀ x ∈ runOps ops, x.2.verdict = .accepted := by
  intro x hx
  exact runOps_inv_aux ops [] (fun e he => absurd he (List.not_mem_nil e)) x hx

/-- C2 witness: after loading the example object, the installed program has
verdict `accepted`. -/
theorem program_table_only_accepted_witness :
    (hello_section, helloProgram) ∈ runOps [SysOp.loadOp helloObject] ∧
    helloProgram.verdict = .accepted := by
  have hmem : (hello_section, helloProgram) ∈ runOps [SysOp.loadOp helloObject] := by decide
  exact ⟨hmem, program_table_only_accepted [SysOp.loadOp helloObject] _ hmem⟩

/-- C4: loading an object with multiple program sections is all-or-nothing:
if any section fails the pipeline (decoding, control-flow analysis or
verification), the whole load fails and the Program Table is unchanged; and
when load succeeds, every program section passed the pipeline. -/
theorem load_all_or_nothing (o : BpfObject) (t : Table)
    (_hmulti : 2 ≤ (progSections o).length) :
    ((∃ s, s ∈ progSections o ∧ ∃ e, loadSection initialRegistry s.2 s.1.bytes = .error e) →
      (∃ e2, loadObject initialRegistry o t = .error e2) ∧ step t (.loadOp o) = t) ∧
    (∀ u, loadObject initialRegistry o t = .ok u →
      ∀ s, s ∈ progSections o → ∃ p, loadSection initialRegistry s.2 s.1.bytes = .ok p) := by
  constructor
  · rintro ⟨s, hs, e, herr⟩
    obtain ⟨e2, h2⟩ := @loadObject_error_of_section initialRegistry o t s hs e herr
    refine ⟨⟨e2, h2⟩, ?_⟩
    simp only [step, h2]
  · intro u hu s hs
    exact loadObject_ok_sections hu s hs

/-- C4 witness: an object with two program sections, the second of which
fails decoding, loads nothing and leaves the table unchanged. -/
theorem load_all_or_nothing_witness :
    (∃ e2, loadObject initialRegistry twoSecObject [] = .error e2) ∧
    step [] (.loadOp twoSecObject) = [] := by
  refine (load_all_or_nothing twoSecObject [] (by decide)).1 ?_
  refine ⟨({ name := "timer", bytes := badOpcodeBytes }, SecType.timer), ?_,
    .unknownOpcode 0, rfl⟩
  decide

/-- C1 counterexample: the claim as stated fails.  The object below has
exactly one program section whose program returns 0 on every terminating run
(`exit; exit` — the second instruction is dead code) and exactly one license
section holding "MIT", yet load rejects with `UnreachableCode 1` because the
CFA rejects instructions unreachable from the entry block. -/
theorem end_to_end_counterexample :
    progSections deadCodeObject =
      [({ name := "tracepoint/syscalls/sys_enter", bytes := deadCodeBytes }, .tracepoint)] ∧
    licSections deadCodeObject = [{ name := "license", bytes := licenseBytes }] ∧
    parseLicense licenseBytes = "MIT" ∧
    decode deadCodeBytes = .ok [.exit, .exit] ∧
    ReturnsZero initialRegistry [.exit, .exit] ∧
    loadObject initialRegistry deadCodeObject [] = .error (.unreachableCode 1) := by
  refine ⟨rfl, rfl, rfl, rfl, ?_, rfl⟩
  intro ctx env fuel v h
  cases fuel with
  | zero => exact Option.noConfusion h
  | succ n =>
    have hr : (interpGo initialRegistry [Instr.exit, Instr.exit] ctx env st0 0 (n + 1)).1 =
        some 0 := rfl
    rw [hr] at h
    exact (Option.some.inj h).symm

/-- C1 (amended): for every object with exactly one program section whose
program both passes the load pipeline and returns 0 on every terminating
run, and exactly one license section holding "MIT", load succeeds, the
program is installed at the attachment point given by its section name, and
every subsequent dispatch to that attachment point returns 0. -/
theorem load_accepted_zero_program_end_to_end (reg : Registry) (ty : SecType)
    (o : BpfObject) (t : Table) (sec lsec : ObjSection) (p : Program)
    (hprog : progSections o = [(sec, ty)])
    (hlic : licSections o = [lsec]) (hmit : parseLicense lsec.bytes = "MIT")
    (hok : loadSection reg ty sec.bytes = .ok p)
    (hz : ReturnsZero reg p.insns) :
    loadObject reg o t = .ok (insertTable t (sec.name, p)) ∧
    lookupTable (insertTable t (sec.name, p)) sec.name = some p ∧
    ∀ ctx env, dispatch reg (insertTable t (sec.name, p)) sec.name ctx env = 0 := by
  have hmem : parseLicense lsec.bytes ∈ recognizedLicenses := by rw [hmit]; decide
  have hmap : mapE (fun st => (loadSection reg st.2 st.1.bytes).map (fun q => (st.1.name, q)))
      (progSections o) = .ok [(sec.name, p)] := by
    rw [hprog]
    show (loadSection reg ty sec.bytes).map (fun q => (sec.name, q)) >>=
      (fun b => Except.ok [b]) = Except.ok [(sec.name, p)]
    rw [hok]
    rfl
  have h1 : loadObject reg o t = .ok (insertTable t (sec.name, p)) := by
    simp only [loadObject, hlic]
    rw [if_pos hmem]
    simp only [hmap]
    rfl
  have hlook : lookupTable (insertTable t (sec.name, p)) sec.name = some p :=
    lookup_insertTable t (sec.name, p)
  refine ⟨h1, hlook, ?_⟩
  intro ctx env
  obtain ⟨hdec, hcfa, hver, _, _⟩ := loadSection_ok_inv hok
  obtain ⟨hne, hrange⟩ := cfa_ok_inv hcfa
  obtain ⟨hmem2, hhelp, hloop, hbud⟩ := verify_ok_inv hver
  have hR : ∀ i ins j, p.insns.get? i = some ins → j ∈ succsOf i ins → j < p.insns.length :=
    fun i ins j hi hj => succs_lt_of_rangeOk hrange hi hj
  have hF : ∀ i ins j, p.insns.get? i = some ins → j ∈ succsOf i ins → i < j :=
    fun i ins j hi hj => succs_forward_of_loopOk hloop hi hj
  have h0 : 0 < p.insns.length := List.length_pos.mpr hne
  have hsome := interp_isSome reg p.insns ctx env hR hF p.budget st0 0 h0 (by omega)
  unfold dispatch
  simp only [hlook]
  cases hv : (runProgram reg p ctx env).1 with
  | none =>
    rw [show (runProgram reg p ctx env).1 =
      (interpGo reg p.insns ctx env st0 0 p.budget).1 from rfl] at hv
    rw [hv] at hsome
    exact absurd hsome (by simp)
  | some v =>
    simp only [hv]
    exact hz ctx env p.budget v hv

/-- C1 witness: loading the example object installs the example program at
its tracepoint attachment point and dispatching there returns 0. -/
theorem load_accepted_zero_program_end_to_end_witness :
    loadObject initialRegistry helloObject [] =
      .ok (insertTable [] ("tracepoint/syscalls/sys_enter", helloProgram)) ∧
    lookupTable (insertTable [] ("tracepoint/syscalls/sys_enter", helloProgram))
      "tracepoint/syscalls/sys_enter" = some helloProgram ∧
    dispatch initialRegistry (insertTable [] ("tracepoint/syscalls/sys_enter", helloProgram))
      "tracepoint/syscalls/sys_enter" (fun _ => 0) ⟨0⟩ = 0 := by
  have hz : ReturnsZero initialRegistry helloProgram.insns := by
    intro ctx env fuel v h
    cases fuel with
    | zero => exact Option.noConfusion h
    | succ n =>
      cases n with
      | zero => exact Option.noConfusion h
      | succ m =>
        have hr : (interpGo initialRegistry helloProgram.insns ctx env st0 0 (m + 1 + 1)).1 =
            some 0 := rfl
        rw [hr] at h
        exact (Option.some.inj h).symm
  have h := load_accepted_zero_program_end_to_end initialRegistry .tracepoint helloObject []
    { name := "tracepoint/syscalls/sys_enter", bytes := helloBytes }
    { name := "license", bytes := licenseBytes } helloProgram rfl rfl rfl rfl hz
  exact ⟨h.1, h.2.1, h.2.2 (fun _ => 0) ⟨0⟩⟩

end AxiomBPF
